import Mathlib

/-!
Shallow embedding of `src/python/kub/course/simlib/simulation.py`
(class `FMUSimulation` and enum `FMUState`).

Modelling conventions:
* Python floats become rationals (`ℚ`); the arithmetic performed by the
  claims' inputs is exact, so `ℚ` reproduces it bit-for-bit.
* The opaque fmpy engine (`self.fmu`) is a black box: every primitive call
  issued to it is recorded in a trace (`List EngineCall`), and the value an
  engine read returns is supplied by an oracle
  (`Oracle : List EngineCall → ℕ → ℚ` — the result of `getReal vr` given the
  calls issued so far).
* Python exceptions become an `Outcome`/`Option SimError` result:
  `RuntimeError` from `require_state` is `SimError.stateError`,
  `KeyError` is `SimError.keyError`, `TypeError` is `SimError.typeError`.
* The `while time < stop` loop of `run` is given fuel (Python diverges when
  `step ≤ 0`; a run that exhausts its fuel is `none`).
* Python runtime values passed to `set` are the inductive `PyVal`;
  `isinstance` is translated faithfully, in particular Python's `bool` is a
  subclass of `int`, so `isinstance(True, int)` is true.
-/

/-- States of the FMU lifecycle, from `class FMUState(Enum)`. -/
inductive FMUState where
  | CREATED
  | INSTANTIATED
  | INITIALIZATION_MODE
  | INITIALIZED
  | SIMULATION
  | TERMINATED
deriving DecidableEq, Repr

/-- One primitive call issued to the underlying fmpy engine (`self.fmu`). -/
inductive EngineCall where
  | setReal (vr : ℕ) (value : ℚ)
  | setInteger (vr : ℕ) (value : ℤ)
  | setBoolean (vr : ℕ) (value : Bool)
  | setString (vr : ℕ) (value : String)
  | getReal (vr : ℕ)
  | doStep (currentCommunicationPoint : ℚ) (communicationStepSize : ℚ)
  | setupExperiment (startTime stopTime : ℚ)
  | enterInitializationMode
  | exitInitializationMode
  | terminate
deriving DecidableEq, Repr

/-- The exceptions the wrapper can raise: `stateError` is the `RuntimeError`
raised by `require_state` (carrying the required state, the method name and
the actual state), `keyError` the `KeyError` for an unknown variable name,
`typeError` the `TypeError` for an unsupported value type. -/
inductive SimError where
  | stateError (required : FMUState) (method : String) (actual : FMUState)
  | keyError (name : String)
  | typeError (name : String)
deriving DecidableEq, Repr

/-- Result of an operation: normal return value or a raised exception. -/
inductive Outcome (α : Type) where
  | ok (val : α)
  | fail (err : SimError)
deriving DecidableEq, Repr

/-- A Python runtime value handed to `set`: float, int, bool, str, or any
other object (`pother`). -/
inductive PyVal where
  | pfloat (q : ℚ)
  | pint (n : ℤ)
  | pbool (b : Bool)
  | pstr (s : String)
  | pother
deriving DecidableEq, Repr

/-- `isinstance(value, float)` — Python `bool`/`int` are not floats. -/
def isinstFloat : PyVal → Bool
  | .pfloat _ => true
  | _ => false

/-- `isinstance(value, int)` — in Python `bool` is a subclass of `int`,
so this is also true for booleans. -/
def isinstInt : PyVal → Bool
  | .pint _ => true
  | .pbool _ => true
  | _ => false

/-- `isinstance(value, bool)`. -/
def isinstBool : PyVal → Bool
  | .pbool _ => true
  | _ => false

/-- `isinstance(value, str)`. -/
def isinstStr : PyVal → Bool
  | .pstr _ => true
  | _ => false

/-- Python `float(value)` on a value for which `isinstance(value, float)`. -/
def pyToFloat : PyVal → ℚ
  | .pfloat q => q
  | _ => 0

/-- Python `int(value)` on a value for which `isinstance(value, int)`;
`int(True) = 1`, `int(False) = 0`. -/
def pyToInt : PyVal → ℤ
  | .pint n => n
  | .pbool b => if b then 1 else 0
  | _ => 0

/-- Python `bool(value)` on a value for which `isinstance(value, bool)`. -/
def pyToBool : PyVal → Bool
  | .pbool b => b
  | _ => false

/-- Python `str(value)` on a value for which `isinstance(value, str)`. -/
def pyToStr : PyVal → String
  | .pstr s => s
  | _ => ""

/-- The engine oracle: the value `getReal vr` returns, as a function of the
calls issued to the engine so far within the modelled operation. -/
abbrev Oracle := List EngineCall → ℕ → ℚ

/-- The `data` dict of `run`: series name to list of samples, in insertion
order (a Python dict of lists). -/
abbrev Dict := List (String × List ℚ)

/-- `d[k] = v`: update the entry for `k` in place, or insert it at the end
(Python dict assignment). -/
def dictSet : Dict → String → List ℚ → Dict
  | [], k, v => [(k, v)]
  | (k0, v0) :: rest, k, v =>
      if k0 = k then (k, v) :: rest else (k0, v0) :: dictSet rest k v

/-- `d[k].append(x)`. When `k` is absent this returns the dict unchanged
(in Python it would raise `KeyError`; `run` creates every key before any
append, so that branch is unreachable there). -/
def dictAppend : Dict → String → ℚ → Dict
  | [], _, _ => []
  | (k0, v0) :: rest, k, x =>
      if k0 = k then (k0, v0 ++ [x]) :: rest else (k0, v0) :: dictAppend rest k x

/-- `d[k]` / `d.get(k)`: look a series up by name. -/
def dictGet : Dict → String → Option (List ℚ)
  | [], _ => none
  | (k0, v0) :: rest, k => if k0 = k then some v0 else dictGet rest k

/-- `self.vrs[name]` / `name in self.vrs`: lookup in the variable table
(name to value reference), `none` modelling the `KeyError` case. -/
def lookupVr : List (String × ℕ) → String → Option ℕ
  | [], _ => none
  | (n, vr) :: rest, name => if n = name then some vr else lookupVr rest name

/-- The mutable attributes of one `FMUSimulation` instance that the claims
observe: lifecycle `state`, variable table `vrs` (name → value reference),
and the experiment window `start`, `stop`, `step` set by `initialize`. -/
structure FMUSimulation where
  state : FMUState
  vrs : List (String × ℕ)
  start : ℚ
  stop : ℚ
  step : ℚ
deriving DecidableEq, Repr

/-- Result of one wrapper operation: its return value or exception, the
instance afterwards, and the engine calls it issued. -/
structure OpResult (α : Type) where
  res : Outcome α
  sim : FMUSimulation
  calls : List EngineCall
deriving DecidableEq, Repr

/-- `FMUSimulation.require_state`: raise a `RuntimeError` carrying the
required state, the method name and the actual state, unless the current
state is the expected one. -/
def FMUSimulation.require_state (sim : FMUSimulation) (expected : FMUState)
    (method : String) : Option SimError :=
  if sim.state = expected then none
  else some (.stateError expected method sim.state)

/-- The typed-setter dispatch of `FMUSimulation.set` for one entry: ordered
`isinstance` checks choosing the primitive engine call, `TypeError` if none
matches. -/
def setDispatch (vr : ℕ) (name : String) (value : PyVal) : Outcome EngineCall :=
  if isinstFloat value then .ok (.setReal vr (pyToFloat value))
  else if isinstInt value then .ok (.setInteger vr (pyToInt value))
  else if isinstBool value then .ok (.setBoolean vr (pyToBool value))
  else if isinstStr value then .ok (.setString vr (pyToStr value))
  else .fail (.typeError name)

/-- `FMUSimulation.set`: apply the entries one at a time in iteration order;
an unknown name raises `KeyError`, an unsupported type `TypeError`; the
engine calls already issued before a failure are kept in the trace (no
rollback). The instance's state is not touched. -/
def FMUSimulation.set (sim : FMUSimulation) :
    List (String × PyVal) → List EngineCall × Option SimError
  | [] => ([], none)
  | (name, value) :: rest =>
      match lookupVr sim.vrs name with
      | none => ([], some (.keyError name))
      | some vr =>
          match setDispatch vr name value with
          | .fail e => ([], some e)
          | .ok c =>
              let (cs, err) := sim.set rest
              (c :: cs, err)

/-- `FMUSimulation.get`: no state check at all — look the name up in the
variable table (`KeyError` if absent) and return the engine's `getReal`. -/
def FMUSimulation.get (o : Oracle) (sim : FMUSimulation) (name : String) :
    OpResult ℚ :=
  match lookupVr sim.vrs name with
  | none => ⟨.fail (.keyError name), sim, []⟩
  | some vr => ⟨.ok (o [] vr), sim, [.getReal vr]⟩

/-- `FMUSimulation.initialize`: requires `INSTANTIATED`; stores the window
`(startTime, stopTime, timeStep)` without any validation, issues
`setupExperiment` and `enterInitializationMode`, and moves to
`INITIALIZATION_MODE`. -/
def FMUSimulation.initialize (sim : FMUSimulation)
    (startTime stopTime timeStep : ℚ) : OpResult Unit :=
  match sim.require_state .INSTANTIATED "initialize" with
  | some e => ⟨.fail e, sim, []⟩
  | none =>
      ⟨.ok (),
        { sim with
            start := startTime, stop := stopTime, step := timeStep,
            state := .INITIALIZATION_MODE },
        [.setupExperiment startTime stopTime, .enterInitializationMode]⟩

/-- `FMUSimulation.exitInitialization`: requires `INITIALIZATION_MODE`,
issues `exitInitializationMode`, moves to `INITIALIZED`. -/
def FMUSimulation.exitInitialization (sim : FMUSimulation) : OpResult Unit :=
  match sim.require_state .INITIALIZATION_MODE "exitInitialization" with
  | some e => ⟨.fail e, sim, []⟩
  | none => ⟨.ok (), { sim with state := .INITIALIZED }, [.exitInitializationMode]⟩

/-- `FMUSimulation.initParameters`: requires `INITIALIZATION_MODE`, then
delegates to `set`; the lifecycle state is unchanged in every case. -/
def FMUSimulation.initParameters (sim : FMUSimulation)
    (inputDic : List (String × PyVal)) : OpResult Unit :=
  match sim.require_state .INITIALIZATION_MODE "initParameters" with
  | some e => ⟨.fail e, sim, []⟩
  | none =>
      let (cs, err) := sim.set inputDic
      match err with
      | some e => ⟨.fail e, sim, cs⟩
      | none => ⟨.ok (), sim, cs⟩

/-- `FMUSimulation.updateInputs`: requires `SIMULATION`, then delegates to
`set`; the lifecycle state is unchanged in every case. -/
def FMUSimulation.updateInputs (sim : FMUSimulation)
    (inputDic : List (String × PyVal)) : OpResult Unit :=
  match sim.require_state .SIMULATION "updateInputs" with
  | some e => ⟨.fail e, sim, []⟩
  | none =>
      let (cs, err) := sim.set inputDic
      match err with
      | some e => ⟨.fail e, sim, cs⟩
      | none => ⟨.ok (), sim, cs⟩

/-- `FMUSimulation.terminate`: a no-op once `TERMINATED`; otherwise issue the
engine's `terminate` and move to `TERMINATED`. It can never raise. -/
def FMUSimulation.terminate (sim : FMUSimulation) :
    FMUSimulation × List EngineCall :=
  if sim.state = .TERMINATED then (sim, [])
  else ({ sim with state := .TERMINATED }, [.terminate])

/-- Dict, calls and pending exception after a sweep over the outputs inside
`run`. -/
structure SweepOut where
  data : Dict
  calls : List EngineCall
  err : Option SimError
deriving DecidableEq, Repr

/-- The dict comprehension `{name: [self.get(name)] for name in outputs}` of
`run`, with `self.get` inlined (lookup then `getReal`): builds the dict in
iteration order, raising `KeyError` at the first unknown name. -/
def firstSample (o : Oracle) (vrs : List (String × ℕ)) :
    List String → Dict → List EngineCall → SweepOut
  | [], d, cs => ⟨d, cs, none⟩
  | name :: rest, d, cs =>
      match lookupVr vrs name with
      | none => ⟨d, cs, some (.keyError name)⟩
      | some vr =>
          firstSample o vrs rest (dictSet d name [o cs vr]) (cs ++ [.getReal vr])

/-- The `for name in outputs` loop before the stepping loop of `run`:
`data[name] = []` then one `getReal` sample appended. -/
def initOutputs (o : Oracle) (vrs : List (String × ℕ)) :
    List String → Dict → List EngineCall → SweepOut
  | [], d, cs => ⟨d, cs, none⟩
  | name :: rest, d, cs =>
      let d1 := dictSet d name []
      match lookupVr vrs name with
      | none => ⟨d1, cs, some (.keyError name)⟩
      | some vr =>
          initOutputs o vrs rest (dictAppend d1 name (o cs vr)) (cs ++ [.getReal vr])

/-- The per-step `for name in outputs` sampling inside the `while` loop of
`run`: one `getReal` appended to each output's series. -/
def sampleOutputs (o : Oracle) (vrs : List (String × ℕ)) :
    List String → Dict → List EngineCall → SweepOut
  | [], d, cs => ⟨d, cs, none⟩
  | name :: rest, d, cs =>
      match lookupVr vrs name with
      | none => ⟨d, cs, some (.keyError name)⟩
      | some vr =>
          sampleOutputs o vrs rest (dictAppend d name (o cs vr)) (cs ++ [.getReal vr])

/-- The `while time < stop` loop of `run`: `doStep(time, step)`, then
`time += step` (a full step, never clamped to `stop`), append the new time,
sample every output. `fuel` bounds the number of iterations; `none` models
divergence (possible in Python when `step ≤ 0`). -/
def runLoop (o : Oracle) (vrs : List (String × ℕ)) (stopT stepT : ℚ)
    (outputs : List String) :
    ℕ → ℚ → Dict → List EngineCall → Option SweepOut
  | 0, time, d, cs => if time < stopT then none else some ⟨d, cs, none⟩
  | fuel + 1, time, d, cs =>
      if time < stopT then
        let cs1 := cs ++ [EngineCall.doStep time stepT]
        let time1 := time + stepT
        let d1 := dictAppend d "time" time1
        match sampleOutputs o vrs outputs d1 cs1 with
        | ⟨d2, cs2, some e⟩ => some ⟨d2, cs2, some e⟩
        | ⟨d2, cs2, none⟩ => runLoop o vrs stopT stepT outputs fuel time1 d2 cs2
      else some ⟨d, cs, none⟩

/-- `FMUSimulation.run`: requires `INITIALIZED`, moves to `SIMULATION`
(and never leaves it within `run` — there is no reset on completion), builds
the initial dict (`{name: [get(name)]}`, then `data["time"] = [time]`, then
the resetting `for` loop), and executes the stepping loop. -/
def FMUSimulation.run (o : Oracle) (fuel : ℕ) (sim : FMUSimulation)
    (outputs : List String) : Option (OpResult Dict) :=
  match sim.require_state .INITIALIZED "run" with
  | some e => some ⟨.fail e, sim, []⟩
  | none =>
      let sim1 : FMUSimulation := { sim with state := .SIMULATION }
      let time := sim.start
      match firstSample o sim.vrs outputs [] [] with
      | ⟨_, cs0, some e⟩ => some ⟨.fail e, sim1, cs0⟩
      | ⟨d0, cs0, none⟩ =>
          let d1 := dictSet d0 "time" [time]
          match initOutputs o sim.vrs outputs d1 cs0 with
          | ⟨_, cs2, some e⟩ => some ⟨.fail e, sim1, cs2⟩
          | ⟨d2, cs2, none⟩ =>
              match runLoop o sim.vrs sim.stop sim.step outputs fuel time d2 cs2 with
              | none => none
              | some ⟨_, cs3, some e⟩ => some ⟨.fail e, sim1, cs3⟩
              | some ⟨d3, cs3, none⟩ => some ⟨.ok d3, sim1, cs3⟩

/-- The result dict of a completed, successful `run`, if any. -/
def runDict (o : Oracle) (fuel : ℕ) (sim : FMUSimulation)
    (outputs : List String) : Option Dict :=
  match FMUSimulation.run o fuel sim outputs with
  | some ⟨.ok d, _, _⟩ => some d
  | _ => none

/-- The `time` series of a completed, successful `run`, if any. -/
def runTime (o : Oracle) (fuel : ℕ) (sim : FMUSimulation)
    (outputs : List String) : Option (List ℚ) :=
  (runDict o fuel sim outputs).bind (fun d => dictGet d "time")

/-- The lifecycle state of the instance after a completed `run`, if any. -/
def runStateAfter (o : Oracle) (fuel : ℕ) (sim : FMUSimulation)
    (outputs : List String) : Option FMUState :=
  (FMUSimulation.run o fuel sim outputs).map (fun out => out.sim.state)

/-- A constantly-zero engine oracle, used for concrete evaluations. -/
def zeroOracle : Oracle := fun _ _ => 0

/-- A small concrete instance: state `INITIALIZED`, one variable `y` with
value reference 1, window `start=0, stop=10, step=3`. -/
def sampleSim : FMUSimulation :=
  ⟨.INITIALIZED, [("y", 1)], 0, 10, 3⟩


/-- The series stored under `name` in the result of a successful `run`. -/
def runSeries (o : Oracle) (fuel : ℕ) (sim : FMUSimulation)
    (outputs : List String) (name : String) : Option (List ℚ) :=
  (runDict o fuel sim outputs).bind (fun d => dictGet d name)

/-- The experiment window of an instance, as one triple. -/
def window (sim : FMUSimulation) : ℚ × ℚ × ℚ :=
  (sim.start, sim.stop, sim.step)

/-- `n` successive calls to `terminate` on the same instance. -/
def terminateIter : ℕ → FMUSimulation → FMUSimulation
  | 0, sim => sim
  | n + 1, sim => (FMUSimulation.terminate (terminateIter n sim)).1

/-- A concrete instance with the window `start=0, stop=100, step=1` of the
spec's length-101 example. -/
def sim100 : FMUSimulation :=
  ⟨.INITIALIZED, [("y", 1)], 0, 100, 1⟩

/-- The list of times appended by `k` iterations of the stepping loop
starting from `time`: repeated addition of the step, as in the source. -/
def tailTimes (time stepT : ℚ) : ℕ → List ℚ
  | 0 => []
  | k + 1 => (time + stepT) :: tailTimes (time + stepT) stepT k

theorem tailTimes_length (stepT : ℚ) :
    ∀ (k : ℕ) (time : ℚ), (tailTimes time stepT k).length = k := by
  intro k
  induction k with
  | zero => intro time; rfl
  | succ k ih => intro time; simp [tailTimes, ih]

theorem tailTimes_eq_map (stepT : ℚ) :
    ∀ (k : ℕ) (time : ℚ),
      tailTimes time stepT k
        = (List.range k).map (fun i : ℕ => time + ((i : ℚ) + 1) * stepT) := by
  intro k
  induction k with
  | zero => intro time; rfl
  | succ k ih =>
      intro time
      rw [List.range_succ_eq_map]
      simp only [tailTimes, ih, List.map_cons, List.map_map]
      congr 1
      · push_cast; ring
      · apply List.map_congr_left
        intro i _
        simp only [Function.comp_apply]
        push_cast
        ring

theorem cons_tailTimes (start stepT : ℚ) (k : ℕ) :
    start :: tailTimes start stepT k
      = (List.range (k + 1)).map (fun i : ℕ => start + (i : ℚ) * stepT) := by
  rw [List.range_succ_eq_map]
  simp only [tailTimes_eq_map, List.map_cons, List.map_map]
  congr 1
  · push_cast; ring
  · apply List.map_congr_left
    intro i _
    simp only [Function.comp_apply]
    push_cast
    ring

theorem dictGet_dictSet :
    ∀ (d : Dict) (k k0 : String) (v : List ℚ),
      dictGet (dictSet d k v) k0 = if k = k0 then some v else dictGet d k0 := by
  intro d
  induction d with
  | nil => intro k k0 v; simp [dictSet, dictGet]
  | cons hd rest ih =>
      intro k k0 v
      obtain ⟨k1, v1⟩ := hd
      by_cases h1 : k1 = k
      · subst h1
        simp only [dictSet, if_pos rfl, dictGet]
        split_ifs with h <;> simp [dictGet, h]
      · simp only [dictSet, if_neg h1, dictGet]
        by_cases h0 : k1 = k0
        · subst h0
          have hk : ¬ k = k1 := fun h => h1 h.symm
          simp [dictGet, hk]
        · simp [dictGet, h0, ih]

theorem dictGet_dictAppend :
    ∀ (d : Dict) (k k0 : String) (x : ℚ),
      dictGet (dictAppend d k x) k0 =
        if k = k0 then (dictGet d k).map (fun l => l ++ [x]) else dictGet d k0 := by
  intro d
  induction d with
  | nil => intro k k0 x; simp [dictAppend, dictGet]
  | cons hd rest ih =>
      intro k k0 x
      obtain ⟨k1, v1⟩ := hd
      by_cases h1 : k1 = k
      · subst h1
        by_cases h0 : k1 = k0
        · subst h0
          simp [dictAppend, dictGet]
        · have hk : ¬ k1 = k0 := h0
          simp [dictAppend, dictGet, hk]
      · simp only [dictAppend, if_neg h1, dictGet]
        by_cases h0 : k1 = k0
        · subst h0
          have hk : ¬ k = k1 := fun h => h1 h.symm
          simp [dictGet, hk]
        · simp [dictGet, h0, ih]

theorem firstSample_spec (o : Oracle) (vrs : List (String × ℕ)) :
    ∀ (outs : List String) (d : Dict) (cs : List EngineCall),
      (∀ n ∈ outs, (lookupVr vrs n).isSome) →
      (firstSample o vrs outs d cs).err = none ∧
      (∀ m, m ∉ outs → dictGet (firstSample o vrs outs d cs).data m = dictGet d m) := by
  intro outs
  induction outs with
  | nil =>
      intro d cs _
      exact ⟨rfl, fun m _ => rfl⟩
  | cons n rest ih =>
      intro d cs hl
      obtain ⟨vr, hvr⟩ := Option.isSome_iff_exists.mp (hl n (List.mem_cons_self n rest))
      have hlr : ∀ x ∈ rest, (lookupVr vrs x).isSome :=
        fun x hx => hl x (List.mem_cons_of_mem n hx)
      have hrec := ih (dictSet d n [o cs vr]) (cs ++ [.getReal vr]) hlr
      simp only [firstSample, hvr]
      refine ⟨hrec.1, ?_⟩
      intro m hm
      have hmn : ¬ n = m := fun h => hm (h ▸ List.mem_cons_self n rest)
      have hmr : m ∉ rest := fun hx => hm (List.mem_cons_of_mem n hx)
      rw [hrec.2 m hmr, dictGet_dictSet, if_neg hmn]

theorem initOutputs_spec (o : Oracle) (vrs : List (String × ℕ)) :
    ∀ (outs : List String) (d : Dict) (cs : List EngineCall),
      (∀ n ∈ outs, (lookupVr vrs n).isSome) →
      (initOutputs o vrs outs d cs).err = none ∧
      (∀ m, m ∉ outs → dictGet (initOutputs o vrs outs d cs).data m = dictGet d m) ∧
      (outs.Nodup → ∀ m ∈ outs, ∃ v : ℚ,
        dictGet (initOutputs o vrs outs d cs).data m = some [v]) := by
  intro outs
  induction outs with
  | nil =>
      intro d cs _
      refine ⟨rfl, fun m _ => rfl, ?_⟩
      intro _ m hm
      simp at hm
  | cons n rest ih =>
      intro d cs hl
      obtain ⟨vr, hvr⟩ := Option.isSome_iff_exists.mp (hl n (List.mem_cons_self n rest))
      have hlr : ∀ x ∈ rest, (lookupVr vrs x).isSome :=
        fun x hx => hl x (List.mem_cons_of_mem n hx)
      have hrec := ih (dictAppend (dictSet d n []) n (o cs vr)) (cs ++ [.getReal vr]) hlr
      simp only [initOutputs, hvr]
      refine ⟨hrec.1, ?_, ?_⟩
      · intro m hm
        have hmn : ¬ n = m := fun h => hm (h ▸ List.mem_cons_self n rest)
        have hmr : m ∉ rest := fun hx => hm (List.mem_cons_of_mem n hx)
        rw [hrec.2.1 m hmr, dictGet_dictAppend, if_neg hmn, dictGet_dictSet, if_neg hmn]
      · intro hnd m hm
        have hnr : n ∉ rest := (List.nodup_cons.mp hnd).1
        have hndr : rest.Nodup := (List.nodup_cons.mp hnd).2
        rcases List.mem_cons.mp hm with hmn | hmr
        · subst hmn
          refine ⟨o cs vr, ?_⟩
          rw [hrec.2.1 m hnr, dictGet_dictAppend, if_pos rfl, dictGet_dictSet, if_pos rfl]
          rfl
        · exact hrec.2.2 hndr m hmr

theorem sampleOutputs_spec (o : Oracle) (vrs : List (String × ℕ)) :
    ∀ (outs : List String) (d : Dict) (cs : List EngineCall),
      (∀ n ∈ outs, (lookupVr vrs n).isSome) →
      (sampleOutputs o vrs outs d cs).err = none ∧
      (∀ m, m ∉ outs → dictGet (sampleOutputs o vrs outs d cs).data m = dictGet d m) ∧
      (outs.Nodup → ∀ m ∈ outs, ∃ v : ℚ,
        dictGet (sampleOutputs o vrs outs d cs).data m
          = (dictGet d m).map (fun l => l ++ [v])) := by
  intro outs
  induction outs with
  | nil =>
      intro d cs _
      refine ⟨rfl, fun m _ => rfl, ?_⟩
      intro _ m hm
      simp at hm
  | cons n rest ih =>
      intro d cs hl
      obtain ⟨vr, hvr⟩ := Option.isSome_iff_exists.mp (hl n (List.mem_cons_self n rest))
      have hlr : ∀ x ∈ rest, (lookupVr vrs x).isSome :=
        fun x hx => hl x (List.mem_cons_of_mem n hx)
      have hrec := ih (dictAppend d n (o cs vr)) (cs ++ [.getReal vr]) hlr
      simp only [sampleOutputs, hvr]
      refine ⟨hrec.1, ?_, ?_⟩
      · intro m hm
        have hmn : ¬ n = m := fun h => hm (h ▸ List.mem_cons_self n rest)
        have hmr : m ∉ rest := fun hx => hm (List.mem_cons_of_mem n hx)
        rw [hrec.2.1 m hmr, dictGet_dictAppend, if_neg hmn]
      · intro hnd m hm
        have hnr : n ∉ rest := (List.nodup_cons.mp hnd).1
        have hndr : rest.Nodup := (List.nodup_cons.mp hnd).2
        rcases List.mem_cons.mp hm with hmn | hmr
        · subst hmn
          refine ⟨o cs vr, ?_⟩
          rw [hrec.2.1 m hnr, dictGet_dictAppend, if_pos rfl]
        · have hmn : ¬ n = m := fun h => hnr (h ▸ hmr)
          obtain ⟨v, hv⟩ := hrec.2.2 hndr m hmr
          refine ⟨v, ?_⟩
          rw [hv, dictGet_dictAppend, if_neg hmn]

theorem runLoop_spec (o : Oracle) (vrs : List (String × ℕ)) (stopT stepT : ℚ)
    (outs : List String)
    (hl : ∀ n ∈ outs, (lookupVr vrs n).isSome)
    (hnd : outs.Nodup) (ht : "time" ∉ outs) :
    ∀ (fuel : ℕ) (time : ℚ) (d : Dict) (cs : List EngineCall) (out : SweepOut),
      runLoop o vrs stopT stepT outs fuel time d cs = some out →
      ∃ k : ℕ,
        out.err = none ∧
        dictGet out.data "time"
          = (dictGet d "time").map (fun l => l ++ tailTimes time stepT k) ∧
        (∀ m ∈ outs, ∃ vs : List ℚ, vs.length = k ∧
            dictGet out.data m = (dictGet d m).map (fun l => l ++ vs)) ∧
        (∀ m, m ∉ outs → m ≠ "time" → dictGet out.data m = dictGet d m) ∧
        (∀ i : ℕ, i < k → time + (i : ℚ) * stepT < stopT) ∧
        ¬ (time + (k : ℚ) * stepT < stopT) := by
  intro fuel
  induction fuel with
  | zero =>
      intro time d cs out hrun
      by_cases hts : time < stopT
      · simp [runLoop, hts] at hrun
      · simp only [runLoop, if_neg hts] at hrun
        obtain rfl : (⟨d, cs, none⟩ : SweepOut) = out := Option.some.inj hrun
        refine ⟨0, rfl, by simp [tailTimes], ?_, fun m _ _ => rfl, ?_, ?_⟩
        · intro m _
          exact ⟨[], rfl, by simp⟩
        · intro i hi
          omega
        · intro hcon
          apply hts
          simpa using hcon
  | succ fuel ih =>
      intro time d cs out hrun
      by_cases hts : time < stopT
      · simp only [runLoop, if_pos hts] at hrun
        rcases hS : sampleOutputs o vrs outs (dictAppend d "time" (time + stepT))
            (cs ++ [EngineCall.doStep time stepT]) with ⟨d2, cs2, err2⟩
        have hspec := sampleOutputs_spec o vrs outs
            (dictAppend d "time" (time + stepT)) (cs ++ [EngineCall.doStep time stepT]) hl
        rw [hS] at hspec hrun
        have herr2 : err2 = none := hspec.1
        subst herr2
        have hrun2 : runLoop o vrs stopT stepT outs fuel (time + stepT) d2 cs2 = some out :=
          hrun
        have hpres : ∀ m, m ∉ outs →
            dictGet d2 m = dictGet (dictAppend d "time" (time + stepT)) m := hspec.2.1
        have hex : ∀ m ∈ outs, ∃ v : ℚ,
            dictGet d2 m
              = (dictGet (dictAppend d "time" (time + stepT)) m).map (fun l => l ++ [v]) :=
          hspec.2.2 hnd
        obtain ⟨k, hek, htime, houts, hoth, hguard, hfin⟩ :=
          ih (time + stepT) d2 cs2 out hrun2
        have hd2time : dictGet d2 "time"
            = (dictGet d "time").map (fun l => l ++ [time + stepT]) := by
          rw [hpres "time" ht, dictGet_dictAppend, if_pos rfl]
        refine ⟨k + 1, hek, ?_, ?_, ?_, ?_, ?_⟩
        · rw [htime, hd2time, Option.map_map]
          have hfe : ((fun l => l ++ tailTimes (time + stepT) stepT k) ∘
              (fun l : List ℚ => l ++ [time + stepT]))
              = fun l : List ℚ => l ++ tailTimes time stepT (k + 1) := by
            funext l
            simp [tailTimes, List.append_assoc]
          rw [hfe]
        · intro m hm
          have hmt : ¬ "time" = m := fun h => ht (h ▸ hm)
          obtain ⟨vs, hvsl, hvs⟩ := houts m hm
          obtain ⟨v, hv⟩ := hex m hm
          refine ⟨v :: vs, by simp [hvsl], ?_⟩
          rw [hvs, hv, dictGet_dictAppend, if_neg hmt, Option.map_map]
          have hfe : ((fun l => l ++ vs) ∘ (fun l : List ℚ => l ++ [v]))
              = fun l : List ℚ => l ++ v :: vs := by
            funext l
            simp
          rw [hfe]
        · intro m hm hmt
          rw [hoth m hm hmt, hpres m hm, dictGet_dictAppend,
            if_neg (fun h => hmt h.symm)]
        · intro i hi
          cases i with
          | zero => simpa using hts
          | succ j =>
              have h2 := hguard j (by omega)
              have e : time + ((j : ℕ) + 1 : ℚ) * stepT
                  = time + stepT + (j : ℚ) * stepT := by ring
              push_cast
              rw [e]
              exact h2
        · intro hcon
          apply hfin
          have e : time + ((k : ℕ) + 1 : ℚ) * stepT
              = time + stepT + (k : ℚ) * stepT := by ring
          push_cast at hcon
          rw [e] at hcon
          exact hcon
      · simp only [runLoop, if_neg hts] at hrun
        obtain rfl : (⟨d, cs, none⟩ : SweepOut) = out := Option.some.inj hrun
        refine ⟨0, rfl, by simp [tailTimes], ?_, fun m _ _ => rfl, ?_, ?_⟩
        · intro m _
          exact ⟨[], rfl, by simp⟩
        · intro i hi
          omega
        · intro hcon
          apply hts
          simpa using hcon

theorem run_gate (o : Oracle) (fuel : ℕ) (sim : FMUSimulation) (outs : List String)
    (h : sim.state ≠ .INITIALIZED) :
    FMUSimulation.run o fuel sim outs
      = some ⟨.fail (.stateError .INITIALIZED "run" sim.state), sim, []⟩ := by
  simp [FMUSimulation.run, FMUSimulation.require_state, h]

theorem run_sim_after (o : Oracle) (fuel : ℕ) (sim : FMUSimulation)
    (outs : List String) (hst : sim.state = .INITIALIZED) (out : OpResult Dict)
    (hrun : FMUSimulation.run o fuel sim outs = some out) :
    out.sim = { sim with state := .SIMULATION } := by
  simp only [FMUSimulation.run, FMUSimulation.require_state, hst, if_pos] at hrun
  rcases hF : firstSample o sim.vrs outs [] [] with ⟨d0, cs0, err0⟩
  rw [hF] at hrun
  cases err0 with
  | some e => cases hrun; rfl
  | none =>
      dsimp only at hrun
      rcases hI : initOutputs o sim.vrs outs (dictSet d0 "time" [sim.start]) cs0
        with ⟨d2, cs2, err2⟩
      rw [hI] at hrun
      cases err2 with
      | some e => cases hrun; rfl
      | none =>
          dsimp only at hrun
          rcases hL : runLoop o sim.vrs sim.stop sim.step outs fuel sim.start d2 cs2
            with _ | ⟨d3, cs3, err3⟩
          · rw [hL] at hrun
            exact Option.noConfusion hrun
          · rw [hL] at hrun
            cases err3 with
            | some e => cases hrun; rfl
            | none => cases hrun; rfl

theorem run_spec (o : Oracle) (fuel : ℕ) (sim : FMUSimulation) (outs : List String)
    (hst : sim.state = .INITIALIZED)
    (hl : ∀ n ∈ outs, (lookupVr sim.vrs n).isSome)
    (hnd : outs.Nodup) (ht : "time" ∉ outs)
    (out : OpResult Dict)
    (hrun : FMUSimulation.run o fuel sim outs = some out) :
    out.sim = { sim with state := .SIMULATION } ∧
    ∃ (d : Dict) (k : ℕ),
      out.res = .ok d ∧
      dictGet d "time" = some (sim.start :: tailTimes sim.start sim.step k) ∧
      (∀ m ∈ outs, ∃ l : List ℚ, dictGet d m = some l ∧ l.length = 1 + k) ∧
      (∀ m, m ∉ outs → m ≠ "time" → dictGet d m = none) ∧
      (∀ i : ℕ, i < k → sim.start + (i : ℚ) * sim.step < sim.stop) ∧
      ¬ (sim.start + (k : ℚ) * sim.step < sim.stop) := by
  simp only [FMUSimulation.run, FMUSimulation.require_state, hst, if_pos] at hrun
  rcases hF : firstSample o sim.vrs outs [] [] with ⟨d0, cs0, err0⟩
  have hFs := firstSample_spec o sim.vrs outs [] [] hl
  rw [hF] at hFs hrun
  have herr0 : err0 = none := hFs.1
  subst herr0
  dsimp only at hrun
  rcases hI : initOutputs o sim.vrs outs (dictSet d0 "time" [sim.start]) cs0
    with ⟨d2, cs2, err2⟩
  have hIs := initOutputs_spec o sim.vrs outs (dictSet d0 "time" [sim.start]) cs0 hl
  rw [hI] at hIs hrun
  have herr2 : err2 = none := hIs.1
  subst herr2
  dsimp only at hrun
  rcases hL : runLoop o sim.vrs sim.stop sim.step outs fuel sim.start d2 cs2
    with _ | ⟨d3, cs3, err3⟩
  · rw [hL] at hrun
    exact Option.noConfusion hrun
  · rw [hL] at hrun
    obtain ⟨k, hek, htime, houts, hoth, hguard, hfin⟩ :=
      runLoop_spec o sim.vrs sim.stop sim.step outs hl hnd ht fuel sim.start d2 cs2
        ⟨d3, cs3, err3⟩ hL
    have herr3 : err3 = none := hek
    subst herr3
    cases hrun
    have hd2time : dictGet d2 "time" = some [sim.start] := by
      rw [hIs.2.1 "time" ht, dictGet_dictSet, if_pos rfl]
    refine ⟨rfl, d3, k, rfl, ?_, ?_, ?_, hguard, hfin⟩
    · rw [htime, hd2time]
      simp
    · intro m hm
      obtain ⟨vs, hvsl, hvs⟩ := houts m hm
      obtain ⟨v, hv⟩ := hIs.2.2 hnd m hm
      refine ⟨v :: vs, ?_, by simp [hvsl, Nat.add_comm]⟩
      rw [hvs, hv]
      simp
    · intro m hm hmt
      rw [hoth m hm hmt, hIs.2.1 m hm, dictGet_dictSet,
        if_neg (fun h => hmt h.symm), hFs.2 m hm]
      rfl

theorem terminate_state (sim : FMUSimulation) :
    (FMUSimulation.terminate sim).1.state = .TERMINATED := by
  by_cases h : sim.state = .TERMINATED <;> simp [FMUSimulation.terminate, h]

theorem setDispatch_not_setBoolean (vr0 : ℕ) (name : String) (value : PyVal)
    (vr : ℕ) (b : Bool) : setDispatch vr0 name value ≠ .ok (.setBoolean vr b) := by
  cases value <;> simp [setDispatch, isinstFloat, isinstInt, isinstBool, isinstStr]

theorem set_no_setBoolean (sim : FMUSimulation) :
    ∀ (dic : List (String × PyVal)) (vr : ℕ) (b : Bool),
      EngineCall.setBoolean vr b ∉ (sim.set dic).1 := by
  intro dic
  induction dic with
  | nil =>
      intro vr b
      simp [FMUSimulation.set]
  | cons hd rest ih =>
      obtain ⟨name, value⟩ := hd
      intro vr b
      simp only [FMUSimulation.set]
      cases hlk : lookupVr sim.vrs name with
      | none => simp
      | some vr0 =>
          dsimp only
          cases hdp : setDispatch vr0 name value with
          | fail e => simp
          | ok c =>
              dsimp only
              rcases hrest : sim.set rest with ⟨cs, err⟩
              dsimp only
              intro hmem
              rcases List.mem_cons.mp hmem with hc | hcs
              · exact setDispatch_not_setBoolean vr0 name value vr b (hc ▸ hdp)
              · have := ih vr b
                rw [hrest] at this
                exact this hcs

theorem runLoop_terminates (o : Oracle) (vrs : List (String × ℕ)) (stopT stepT : ℚ)
    (outs : List String) :
    ∀ (fuel : ℕ) (time : ℚ) (d : Dict) (cs : List EngineCall),
      stopT ≤ time + (fuel : ℚ) * stepT →
      (runLoop o vrs stopT stepT outs fuel time d cs).isSome := by
  intro fuel
  induction fuel with
  | zero =>
      intro time d cs hfuel
      have h0 : stopT ≤ time := by push_cast at hfuel; linarith
      simp [runLoop, not_lt.mpr h0]
  | succ fuel ih =>
      intro time d cs hfuel
      by_cases hts : time < stopT
      · simp only [runLoop, if_pos hts]
        rcases hS : sampleOutputs o vrs outs (dictAppend d "time" (time + stepT))
            (cs ++ [EngineCall.doStep time stepT]) with ⟨d2, cs2, err2⟩
        cases err2 with
        | some e => simp
        | none =>
            dsimp only
            apply ih
            push_cast at hfuel
            have e : time + ((fuel : ℚ) + 1) * stepT
                = time + stepT + (fuel : ℚ) * stepT := by ring
            linarith [hfuel, e.ge, e.le]
      · simp [runLoop, hts]

theorem run_terminates (o : Oracle) (fuel : ℕ) (sim : FMUSimulation)
    (outs : List String) (hst : sim.state = .INITIALIZED)
    (hfuel : sim.stop ≤ sim.start + (fuel : ℚ) * sim.step) :
    (FMUSimulation.run o fuel sim outs).isSome := by
  simp only [FMUSimulation.run, FMUSimulation.require_state, hst, if_pos]
  rcases hF : firstSample o sim.vrs outs [] [] with ⟨d0, cs0, err0⟩
  cases err0 with
  | some e => simp
  | none =>
      dsimp only
      rcases hI : initOutputs o sim.vrs outs (dictSet d0 "time" [sim.start]) cs0
        with ⟨d2, cs2, err2⟩
      cases err2 with
      | some e => simp
      | none =>
          dsimp only
          have hterm := runLoop_terminates o sim.vrs sim.stop sim.step outs
            fuel sim.start d2 cs2 hfuel
          rcases hL : runLoop o sim.vrs sim.stop sim.step outs fuel sim.start d2 cs2
            with _ | ⟨d3, cs3, err3⟩
          · rw [hL] at hterm
            simp at hterm
          · cases err3 <;> simp

theorem run_sim_cases (o : Oracle) (fuel : ℕ) (sim : FMUSimulation)
    (outs : List String) (out : OpResult Dict)
    (hrun : FMUSimulation.run o fuel sim outs = some out) :
    out.sim = sim ∨ out.sim = { sim with state := .SIMULATION } := by
  by_cases hst : sim.state = .INITIALIZED
  · exact Or.inr (run_sim_after o fuel sim outs hst out hrun)
  · rw [run_gate o fuel sim outs hst] at hrun
    cases hrun
    exact Or.inl rfl

/-- Claim C3: every gated operation (`initialize`, `initParameters`,
`exitInitialization`, `updateInputs`, `run`) called while the instance is in
a state other than its required state fails with a `StateError` carrying the
required state, the method name and the actual state; the instance is left
unchanged and no engine call is issued. In particular `initParameters` in
state `INSTANTIATED` fails expecting `INITIALIZATION_MODE`. -/
theorem C3_wrong_state_rejected (sim : FMUSimulation) :
    (sim.state ≠ .INSTANTIATED → ∀ s t st : ℚ,
      FMUSimulation.initialize sim s t st
        = ⟨.fail (.stateError .INSTANTIATED "initialize" sim.state), sim, []⟩) ∧
    (sim.state ≠ .INITIALIZATION_MODE → ∀ dic,
      FMUSimulation.initParameters sim dic
        = ⟨.fail (.stateError .INITIALIZATION_MODE "initParameters" sim.state), sim, []⟩) ∧
    (sim.state ≠ .INITIALIZATION_MODE →
      FMUSimulation.exitInitialization sim
        = ⟨.fail (.stateError .INITIALIZATION_MODE "exitInitialization" sim.state), sim, []⟩) ∧
    (sim.state ≠ .SIMULATION → ∀ dic,
      FMUSimulation.updateInputs sim dic
        = ⟨.fail (.stateError .SIMULATION "updateInputs" sim.state), sim, []⟩) ∧
    (sim.state ≠ .INITIALIZED → ∀ (o : Oracle) (fuel : ℕ) (outs : List String),
      FMUSimulation.run o fuel sim outs
        = some ⟨.fail (.stateError .INITIALIZED "run" sim.state), sim, []⟩) ∧
    (sim.state = .INSTANTIATED → ∀ dic,
      FMUSimulation.initParameters sim dic
        = ⟨.fail (.stateError .INITIALIZATION_MODE "initParameters" .INSTANTIATED), sim, []⟩) := by
  refine ⟨?_, ?_, ?_, ?_, ?_, ?_⟩
  · intro h s t st
    simp [ FMUSimulation.initialize, FMUSimulation.require_state, h]
  · intro h dic
    simp [FMUSimulation.initParameters, FMUSimulation.require_state, h]
  · intro h
    simp [FMUSimulation.exitInitialization, FMUSimulation.require_state, h]
  · intro h dic
    simp [FMUSimulation.updateInputs, FMUSimulation.require_state, h]
  · intro h o fuel outs
    exact run_gate o fuel sim outs h
  · intro h dic
    simp [FMUSimulation.initParameters, FMUSimulation.require_state, h]

/-- Claim C4 (code bug): the typed setter is chosen by ordered `isinstance`
checks and, because a Python `bool` is an `int` and the `int` check comes
first, a boolean value is dispatched to `setInteger` (with `int(True) = 1`);
the `setBoolean` branch is unreachable: no `set` call ever issues a
`setBoolean` engine call. Floats, plain ints, strings and the unsupported
case behave as the claim says. -/
theorem C4_bool_dispatch_bug :
    (FMUSimulation.set ⟨.INITIALIZATION_MODE, [("b", 5)], 0, 3600, 1⟩
        [("b", .pbool true)] = ([.setInteger 5 1], none)) ∧
    (∀ (vr : ℕ) (name : String) (q : ℚ),
      setDispatch vr name (.pfloat q) = .ok (.setReal vr q)) ∧
    (∀ (vr : ℕ) (name : String) (n : ℤ),
      setDispatch vr name (.pint n) = .ok (.setInteger vr n)) ∧
    (∀ (vr : ℕ) (name : String) (b : Bool),
      setDispatch vr name (.pbool b) = .ok (.setInteger vr (if b then 1 else 0))) ∧
    (∀ (vr : ℕ) (name : String) (s : String),
      setDispatch vr name (.pstr s) = .ok (.setString vr s)) ∧
    (∀ (vr : ℕ) (name : String),
      setDispatch vr name .pother = .fail (.typeError name)) ∧
    (∀ (sim : FMUSimulation) (dic : List (String × PyVal)) (vr : ℕ) (b : Bool),
      EngineCall.setBoolean vr b ∉ (sim.set dic).1) := by
  refine ⟨rfl, ?_, ?_, ?_, ?_, ?_, ?_⟩
  · intro vr name q
    rfl
  · intro vr name n
    rfl
  · intro vr name b
    rfl
  · intro vr name s
    rfl
  · intro vr name
    rfl
  · intro sim dic vr b
    exact set_no_setBoolean sim dic vr b

/-- Claim C6: `terminate` is idempotent — from any starting state, N ≥ 1
calls end with the instance `TERMINATED` (and `terminate` never raises: its
result type carries no error); once `TERMINATED`, a further `terminate` is a
no-op that issues no engine call. -/
theorem C6_terminate_idempotent (sim : FMUSimulation) (n : ℕ) (h : 1 ≤ n) :
    (terminateIter n sim).state = .TERMINATED ∧
    (∀ sim2 : FMUSimulation, sim2.state = .TERMINATED →
      FMUSimulation.terminate sim2 = (sim2, [])) := by
  constructor
  · cases n with
    | zero => omega
    | succ m => exact terminate_state (terminateIter m sim)
  · intro sim2 h2
    simp [FMUSimulation.terminate, h2]

/-- Claim C6 witness: three `terminate` calls on a freshly created instance
end in `TERMINATED`, and `terminate` on a terminated instance is a no-op. -/
theorem C6_terminate_idempotent_witness :
    (terminateIter 3 ⟨.CREATED, [], 0, 3600, 1⟩).state = .TERMINATED ∧
    (∀ sim2 : FMUSimulation, sim2.state = .TERMINATED →
      FMUSimulation.terminate sim2 = (sim2, [])) :=
  C6_terminate_idempotent ⟨.CREATED, [], 0, 3600, 1⟩ 3 (by decide)

/-- Claim C10: `get` performs no lifecycle-state check — in every state,
including `TERMINATED`, it issues `getReal` and returns the engine's value
when the name is in the variable table, raises the key-lookup error when it
is not, and never produces a `StateError`. -/
theorem C10_get_unchecked (o : Oracle) (sim : FMUSimulation) (name : String) :
    (∀ vr : ℕ, lookupVr sim.vrs name = some vr →
      FMUSimulation.get o sim name = ⟨.ok (o [] vr), sim, [.getReal vr]⟩) ∧
    (lookupVr sim.vrs name = none →
      FMUSimulation.get o sim name = ⟨.fail (.keyError name), sim, []⟩) ∧
    (∀ (req : FMUState) (meth : String) (act : FMUState),
      (FMUSimulation.get o sim name).res ≠ .fail (.stateError req meth act)) := by
  refine ⟨?_, ?_, ?_⟩
  · intro vr hvr
    simp [FMUSimulation.get, hvr]
  · intro hvr
    simp [FMUSimulation.get, hvr]
  · intro req meth act
    cases hvr : lookupVr sim.vrs name <;> simp [FMUSimulation.get, hvr]

theorem initParameters_sim (sim : FMUSimulation) (dic : List (String × PyVal)) :
    (FMUSimulation.initParameters sim dic).sim = sim := by
  by_cases h : sim.state = .INITIALIZATION_MODE
  · have hreq : FMUSimulation.require_state sim .INITIALIZATION_MODE "initParameters"
        = none := by simp [FMUSimulation.require_state, h]
    simp only [FMUSimulation.initParameters, hreq]
    rcases hs : sim.set dic with ⟨cs, err⟩
    cases err <;> rfl
  · simp [FMUSimulation.initParameters, FMUSimulation.require_state, h]

theorem updateInputs_sim (sim : FMUSimulation) (dic : List (String × PyVal)) :
    (FMUSimulation.updateInputs sim dic).sim = sim := by
  by_cases h : sim.state = .SIMULATION
  · have hreq : FMUSimulation.require_state sim .SIMULATION "updateInputs"
        = none := by simp [FMUSimulation.require_state, h]
    simp only [FMUSimulation.updateInputs, hreq]
    rcases hs : sim.set dic with ⟨cs, err⟩
    cases err <;> rfl
  · simp [FMUSimulation.updateInputs, FMUSimulation.require_state, h]

theorem get_sim (o : Oracle) (sim : FMUSimulation) (name : String) :
    (FMUSimulation.get o sim name).sim = sim := by
  cases h : lookupVr sim.vrs name <;> simp [FMUSimulation.get, h]

theorem runDict_eq (o : Oracle) (fuel : ℕ) (sim : FMUSimulation)
    (outs : List String) (out : OpResult Dict) (d : Dict)
    (hout : FMUSimulation.run o fuel sim outs = some out)
    (hres : out.res = .ok d) :
    runDict o fuel sim outs = some d := by
  rcases out with ⟨res, sim2, cs2⟩
  have hres2 : res = .ok d := hres
  subst hres2
  simp [runDict, hout]

/-- Claim C8: `set` applies entries one at a time in iteration order; at the
first unknown name it fails with the key error naming that variable, issuing
no engine call for that entry, while the calls for all previously applied
entries remain issued (no rollback); in particular `set` of `X = 1.5` on a
table without `X` fails with the key error for `X` and issues no engine
call at all. -/
theorem C8_set_partial_application (sim : FMUSimulation)
    (pre post : List (String × PyVal)) (name : String) (value : PyVal)
    (hpre : (sim.set pre).2 = none)
    (hname : lookupVr sim.vrs name = none) :
    FMUSimulation.set sim (pre ++ (name, value) :: post)
      = ((sim.set pre).1, some (.keyError name)) ∧
    FMUSimulation.set ⟨.INITIALIZATION_MODE, [("R", 7)], 0, 3600, 1⟩
      [("X", .pfloat (3 / 2))] = ([], some (.keyError "X")) := by
  have hgen : ∀ pre2 : List (String × PyVal), (sim.set pre2).2 = none →
      FMUSimulation.set sim (pre2 ++ (name, value) :: post)
        = ((sim.set pre2).1, some (.keyError name)) := by
    intro pre2
    induction pre2 with
    | nil =>
        intro _
        simp [FMUSimulation.set, hname]
    | cons hd rest ih =>
        obtain ⟨n0, v0⟩ := hd
        intro hpre2
        simp only [FMUSimulation.set, List.cons_append] at hpre2 ⊢
        cases hlk : lookupVr sim.vrs n0 with
        | none =>
            rw [hlk] at hpre2
            simp at hpre2
        | some vr0 =>
            rw [hlk] at hpre2
            dsimp only at hpre2 ⊢
            cases hdp : setDispatch vr0 n0 v0 with
            | fail e =>
                rw [hdp] at hpre2
                simp at hpre2
            | ok c =>
                rw [hdp] at hpre2
                dsimp only at hpre2 ⊢
                rcases hrest : sim.set rest with ⟨cs, err⟩
                rw [hrest] at hpre2
                dsimp only at hpre2
                subst hpre2
                have hrest2 : (sim.set rest).2 = none := by rw [hrest]
                simp only [List.append_eq]
                rw [ih hrest2, hrest]
  exact ⟨hgen pre hpre, rfl⟩

/-- Claim C8 witness: with a table holding only `R`, applying `R = 2` then
the unknown `X` fails with the key error for `X` while the `setInteger`
call for `R` stays applied. -/
theorem C8_set_partial_application_witness :
    FMUSimulation.set ⟨.INITIALIZATION_MODE, [("R", 7)], 0, 3600, 1⟩
        ([("R", PyVal.pint 2)] ++ ("X", PyVal.pstr "v") :: [])
      = ((FMUSimulation.set ⟨.INITIALIZATION_MODE, [("R", 7)], 0, 3600, 1⟩
          [("R", PyVal.pint 2)]).1, some (.keyError "X")) ∧
    FMUSimulation.set ⟨.INITIALIZATION_MODE, [("R", 7)], 0, 3600, 1⟩
      [("X", .pfloat (3 / 2))] = ([], some (.keyError "X")) :=
  C8_set_partial_application ⟨.INITIALIZATION_MODE, [("R", 7)], 0, 3600, 1⟩
    [("R", PyVal.pint 2)] [] "X" (PyVal.pstr "v") (by decide) (by decide)

/-- Claim C5 counterexample: `run` called in state `INITIALIZED` with the
unknown output name `X` fails with the key error, but the lifecycle state
has already moved to `SIMULATION` — it is not the same as before the call,
so the failure is not side-effect-free. -/
theorem C5_counterexample :
    FMUSimulation.run zeroOracle 10 sampleSim ["X"]
      = some ⟨.fail (.keyError "X"), ⟨.SIMULATION, [("y", 1)], 0, 10, 3⟩, []⟩ ∧
    sampleSim.state = .INITIALIZED ∧
    (⟨.SIMULATION, [("y", 1)], 0, 10, 3⟩ : FMUSimulation).state ≠ sampleSim.state := by
  exact ⟨rfl, rfl, by decide⟩

/-- Claim C5 (amended): the `set`-based operations (`initParameters`,
`updateInputs`) and `get` never change the instance, so their unknown-name
and unsupported-type failures have no state effect; but `run` moves to
`SIMULATION` before probing its output names, so a `run` that fails on an
unknown output leaves the state `SIMULATION`, not the state it was called
in. -/
theorem C5_error_side_effects (sim : FMUSimulation) :
    (∀ dic, (FMUSimulation.initParameters sim dic).sim = sim) ∧
    (∀ dic, (FMUSimulation.updateInputs sim dic).sim = sim) ∧
    (∀ (o : Oracle) (name : String), (FMUSimulation.get o sim name).sim = sim) ∧
    (∀ (o : Oracle) (fuel : ℕ) (outs : List String) (out : OpResult Dict),
      sim.state = .INITIALIZED →
      FMUSimulation.run o fuel sim outs = some out →
      out.sim.state = .SIMULATION) := by
  refine ⟨fun dic => initParameters_sim sim dic,
    fun dic => updateInputs_sim sim dic,
    fun o name => get_sim o sim name, ?_⟩
  intro o fuel outs out hst hrun
  rw [run_sim_after o fuel sim outs hst out hrun]

/-- Claim C9 counterexample: `initialize` accepts a window violating both
`step > 0` (step = -1) and `stop ≥ start` (stop = -5 < 0 = start): the call
succeeds and installs that window instead of being rejected. -/
theorem C9_counterexample :
    ( FMUSimulation.initialize ⟨.INSTANTIATED, [("y", 1)], 0, 3600, 1⟩ 0 (-5) (-1)).res
      = .ok () ∧
    ( FMUSimulation.initialize ⟨.INSTANTIATED, [("y", 1)], 0, 3600, 1⟩ 0 (-5) (-1)).sim
      = ⟨.INITIALIZATION_MODE, [("y", 1)], 0, -5, -1⟩ ∧
    ¬ (0 < (-1 : ℚ)) ∧ ¬ ((0 : ℚ) ≤ -5) := by
  exact ⟨rfl, rfl, by norm_num, by norm_num⟩

/-- Claim C9 (amended): `initialize` performs no validation of the window —
in state `INSTANTIATED` it accepts any `(start, stop, step)` and installs
it; every other operation leaves the window unchanged, and once the state
has left `INSTANTIATED` no operation brings it back, so the window set by a
successful `initialize` is fixed for the remainder of the instance's
life. -/
theorem C9_window_unvalidated_and_fixed (sim : FMUSimulation) :
    (sim.state = .INSTANTIATED → ∀ s t st : ℚ,
      FMUSimulation.initialize sim s t st
        = ⟨.ok (),
            { sim with
                start := s, stop := t, step := st,
                state := .INITIALIZATION_MODE },
            [.setupExperiment s t, .enterInitializationMode]⟩) ∧
    (window (FMUSimulation.exitInitialization sim).sim = window sim) ∧
    (∀ dic, window (FMUSimulation.initParameters sim dic).sim = window sim) ∧
    (∀ dic, window (FMUSimulation.updateInputs sim dic).sim = window sim) ∧
    (window (FMUSimulation.terminate sim).1 = window sim) ∧
    (∀ (o : Oracle) (name : String),
      window (FMUSimulation.get o sim name).sim = window sim) ∧
    (∀ (o : Oracle) (fuel : ℕ) (outs : List String) (out : OpResult Dict),
      FMUSimulation.run o fuel sim outs = some out → window out.sim = window sim) ∧
    (sim.state ≠ .INSTANTIATED →
      (∀ s t st : ℚ,
        ( FMUSimulation.initialize sim s t st).sim.state ≠ .INSTANTIATED) ∧
      ((FMUSimulation.exitInitialization sim).sim.state ≠ .INSTANTIATED) ∧
      (∀ dic, (FMUSimulation.initParameters sim dic).sim.state ≠ .INSTANTIATED) ∧
      (∀ dic, (FMUSimulation.updateInputs sim dic).sim.state ≠ .INSTANTIATED) ∧
      ((FMUSimulation.terminate sim).1.state ≠ .INSTANTIATED) ∧
      (∀ (o : Oracle) (name : String),
        (FMUSimulation.get o sim name).sim.state ≠ .INSTANTIATED) ∧
      (∀ (o : Oracle) (fuel : ℕ) (outs : List String) (out : OpResult Dict),
        FMUSimulation.run o fuel sim outs = some out →
        out.sim.state ≠ .INSTANTIATED)) := by
  refine ⟨?_, ?_, ?_, ?_, ?_, ?_, ?_, ?_⟩
  · intro h s t st
    simp [ FMUSimulation.initialize, FMUSimulation.require_state, h]
  · by_cases h : sim.state = .INITIALIZATION_MODE <;>
      simp [FMUSimulation.exitInitialization, FMUSimulation.require_state, h, window]
  · intro dic
    rw [initParameters_sim sim dic]
  · intro dic
    rw [updateInputs_sim sim dic]
  · by_cases h : sim.state = .TERMINATED <;>
      simp [FMUSimulation.terminate, h, window]
  · intro o name
    rw [get_sim o sim name]
  · intro o fuel outs out hrun
    rcases run_sim_cases o fuel sim outs out hrun with h | h
    · rw [h]
    · rw [h]
      simp [window]
  · intro h
    refine ⟨?_, ?_, ?_, ?_, ?_, ?_, ?_⟩
    · intro s t st
      simp [ FMUSimulation.initialize, FMUSimulation.require_state, h]
    · by_cases h2 : sim.state = .INITIALIZATION_MODE
      · simp [FMUSimulation.exitInitialization, FMUSimulation.require_state, h2]
      · simp [FMUSimulation.exitInitialization, FMUSimulation.require_state, h2]
        exact h
    · intro dic
      rw [initParameters_sim sim dic]
      exact h
    · intro dic
      rw [updateInputs_sim sim dic]
      exact h
    · rw [terminate_state sim]
      decide
    · intro o name
      rw [get_sim o sim name]
      exact h
    · intro o fuel outs out hrun
      rcases run_sim_cases o fuel sim outs out hrun with h3 | h3
      · rw [h3]
        exact h
      · rw [h3]
        simp

/-- Claim C1 counterexample: for `start=0, stop=10, step=3` the returned
`time` series is `[0, 3, 6, 9, 12]`, not the claimed `[0, 3, 6, 9, 10]` —
the final interval is a full step past `stop`, not a shorter one. -/
theorem C1_counterexample :
    runTime zeroOracle 10 sampleSim ["y"] = some [0, 3, 6, 9, 12] ∧
    runTime zeroOracle 10 sampleSim ["y"] ≠ some [0, 3, 6, 9, 10] := by
  have h : runTime zeroOracle 10 sampleSim ["y"] = some [0, 3, 6, 9, 12] := by
    norm_num [runTime, runDict, FMUSimulation.run, FMUSimulation.require_state,
      sampleSim, firstSample, initOutputs, sampleOutputs, runLoop, lookupVr,
      dictSet, dictAppend, dictGet, zeroOracle, String.reduceEq]
    all_goals decide
  refine ⟨h, ?_⟩
  rw [h]
  norm_num

/-- Claim C1 (amended): the stepping loop stops when `time ≥ stop`, but its
final interval is a full `step`, never shortened: on a completed `run` the
recorded times are `start + i*step` for `i = 0..k`, where the times before
the last are below `stop` and the last is the first to reach or pass `stop`
(so when `stop - start` is not an exact multiple of `step` the last sample
overshoots `stop`; for `start=0, stop=10, step=3` the series is
`[0, 3, 6, 9, 12]`). -/
theorem C1_run_full_steps (o : Oracle) (fuel : ℕ) (sim : FMUSimulation)
    (outs : List String)
    (hst : sim.state = .INITIALIZED)
    (hl : ∀ n ∈ outs, (lookupVr sim.vrs n).isSome)
    (hnd : outs.Nodup) (ht : "time" ∉ outs)
    (hsome : (FMUSimulation.run o fuel sim outs).isSome) :
    ∃ k : ℕ,
      runTime o fuel sim outs
        = some ((List.range (k + 1)).map fun i : ℕ => sim.start + (i : ℚ) * sim.step) ∧
      (∀ i : ℕ, i < k → sim.start + (i : ℚ) * sim.step < sim.stop) ∧
      ¬ (sim.start + (k : ℚ) * sim.step < sim.stop) := by
  obtain ⟨out, hout⟩ := Option.isSome_iff_exists.mp hsome
  obtain ⟨hsim, d, k, hres, htime, houts, hoth, hg, hf⟩ :=
    run_spec o fuel sim outs hst hl hnd ht out hout
  refine ⟨k, ?_, hg, hf⟩
  have hdict := runDict_eq o fuel sim outs out d hout hres
  simp only [runTime, hdict, Option.some_bind]
  rw [htime, cons_tailTimes]

/-- Claim C1 witness: the amended statement instantiated at the window
`start=0, stop=10, step=3` with output `y`. -/
theorem C1_run_full_steps_witness :
    ∃ k : ℕ,
      runTime zeroOracle 10 sampleSim ["y"]
        = some ((List.range (k + 1)).map
            fun i : ℕ => sampleSim.start + (i : ℚ) * sampleSim.step) ∧
      (∀ i : ℕ, i < k → sampleSim.start + (i : ℚ) * sampleSim.step < sampleSim.stop) ∧
      ¬ (sampleSim.start + (k : ℚ) * sampleSim.step < sampleSim.stop) :=
  C1_run_full_steps zeroOracle 10 sampleSim ["y"] rfl (by decide) (by decide)
    (by decide)
    (run_terminates zeroOracle 10 sampleSim ["y"] rfl (by norm_num [sampleSim]))

/-- Claim C2 counterexample: a `run` from `INITIALIZED` that completes
normally leaves the instance in `SIMULATION`, not back in `INITIALIZED`,
and a second `run` on the completed instance is rejected with a
`StateError`. -/
theorem C2_counterexample :
    runStateAfter zeroOracle 10 sampleSim ["y"] = some .SIMULATION ∧
    (runDict zeroOracle 10 sampleSim ["y"]).isSome ∧
    runStateAfter zeroOracle 10 sampleSim ["y"] ≠ some .INITIALIZED ∧
    FMUSimulation.run zeroOracle 10 ⟨.SIMULATION, [("y", 1)], 0, 10, 3⟩ ["y"]
      = some ⟨.fail (.stateError .INITIALIZED "run" .SIMULATION),
          ⟨.SIMULATION, [("y", 1)], 0, 10, 3⟩, []⟩ := by
  have hsome := run_terminates zeroOracle 10 sampleSim ["y"] rfl
    (by norm_num [sampleSim])
  obtain ⟨out, hout⟩ := Option.isSome_iff_exists.mp hsome
  obtain ⟨hsim, d, k, hres, _⟩ :=
    run_spec zeroOracle 10 sampleSim ["y"] rfl (by decide) (by decide) (by decide)
      out hout
  have hdict := runDict_eq zeroOracle 10 sampleSim ["y"] out d hout hres
  refine ⟨?_, ?_, ?_, ?_⟩
  · simp [runStateAfter, hout, hsim]
  · simp [hdict]
  · simp [runStateAfter, hout, hsim]
  · exact run_gate zeroOracle 10 ⟨.SIMULATION, [("y", 1)], 0, 10, 3⟩ ["y"] (by decide)

/-- Claim C2 (amended): `run` requires `INITIALIZED` and moves to
`SIMULATION`, but on completion the state stays `SIMULATION` — there is no
reset to `INITIALIZED`, so `run` cannot be called again on the same
instance: any later `run` on an instance in `SIMULATION` fails with a
`StateError`. -/
theorem C2_run_stays_simulating (o : Oracle) (fuel : ℕ) (sim : FMUSimulation)
    (outs : List String) (hst : sim.state = .INITIALIZED)
    (hsome : (FMUSimulation.run o fuel sim outs).isSome) :
    runStateAfter o fuel sim outs = some .SIMULATION ∧
    (∀ sim2 : FMUSimulation, sim2.state = .SIMULATION →
      ∀ (o2 : Oracle) (fuel2 : ℕ) (outs2 : List String),
        FMUSimulation.run o2 fuel2 sim2 outs2
          = some ⟨.fail (.stateError .INITIALIZED "run" .SIMULATION), sim2, []⟩) := by
  obtain ⟨out, hout⟩ := Option.isSome_iff_exists.mp hsome
  have hsim := run_sim_after o fuel sim outs hst out hout
  constructor
  · simp [runStateAfter, hout, hsim]
  · intro sim2 h2 o2 fuel2 outs2
    have hne : sim2.state ≠ .INITIALIZED := by rw [h2]; decide
    have hgate := run_gate o2 fuel2 sim2 outs2 hne
    rw [h2] at hgate
    exact hgate

/-- Claim C2 witness: the amended statement instantiated at the window
`start=0, stop=10, step=3` with output `y`. -/
theorem C2_run_stays_simulating_witness :
    runStateAfter zeroOracle 10 sampleSim ["y"] = some .SIMULATION ∧
    (∀ sim2 : FMUSimulation, sim2.state = .SIMULATION →
      ∀ (o2 : Oracle) (fuel2 : ℕ) (outs2 : List String),
        FMUSimulation.run o2 fuel2 sim2 outs2
          = some ⟨.fail (.stateError .INITIALIZED "run" .SIMULATION), sim2, []⟩) :=
  C2_run_stays_simulating zeroOracle 10 sampleSim ["y"] rfl
    (run_terminates zeroOracle 10 sampleSim ["y"] rfl (by norm_num [sampleSim]))

/-- Claim C7: every series in the result of one completed `run` — the
reserved `time` series included — has the same length `1 + k` (one initial
sample plus one per loop iteration), and names outside the requested
outputs own no series; for `start=0, stop=100, step=1` the `time` series
has length 101 with `time[0] = 0` and `time[100] = 100`, and the requested
output series has length 101. -/
theorem C7_equal_series_lengths (o : Oracle) (fuel : ℕ) (sim : FMUSimulation)
    (outs : List String)
    (hst : sim.state = .INITIALIZED)
    (hl : ∀ n ∈ outs, (lookupVr sim.vrs n).isSome)
    (hnd : outs.Nodup) (ht : "time" ∉ outs)
    (hsome : (FMUSimulation.run o fuel sim outs).isSome) :
    (∃ k : ℕ,
      (runTime o fuel sim outs).map List.length = some (1 + k) ∧
      (∀ m ∈ outs, (runSeries o fuel sim outs m).map List.length = some (1 + k)) ∧
      (∀ m, m ∉ outs → m ≠ "time" → runSeries o fuel sim outs m = none)) ∧
    (runTime zeroOracle 101 sim100 ["y"]).map List.length = some 101 ∧
    (runTime zeroOracle 101 sim100 ["y"]).bind List.head? = some 0 ∧
    (runTime zeroOracle 101 sim100 ["y"]).bind (fun l => l.get? 100) = some 100 ∧
    (runSeries zeroOracle 101 sim100 ["y"] "y").map List.length = some 101 := by
  constructor
  · obtain ⟨out, hout⟩ := Option.isSome_iff_exists.mp hsome
    obtain ⟨hsim, d, k, hres, htime, houts, hoth, hg, hf⟩ :=
      run_spec o fuel sim outs hst hl hnd ht out hout
    have hdict := runDict_eq o fuel sim outs out d hout hres
    refine ⟨k, ?_, ?_, ?_⟩
    · simp only [runTime, hdict, Option.some_bind]
      rw [htime]
      simp [tailTimes_length, Nat.add_comm]
    · intro m hm
      obtain ⟨l, hle, hll⟩ := houts m hm
      simp only [runSeries, hdict, Option.some_bind]
      rw [hle]
      simp [hll]
    · intro m hm hmt
      simp only [runSeries, hdict, Option.some_bind]
      exact hoth m hm hmt
  · have hsome100 : (FMUSimulation.run zeroOracle 101 sim100 ["y"]).isSome :=
      run_terminates zeroOracle 101 sim100 ["y"] rfl (by norm_num [sim100])
    obtain ⟨out, hout⟩ := Option.isSome_iff_exists.mp hsome100
    obtain ⟨hsim, d, k, hres, htime, houts, hoth, hg, hf⟩ :=
      run_spec zeroOracle 101 sim100 ["y"] rfl (by decide) (by decide) (by decide)
        out hout
    have hdict := runDict_eq zeroOracle 101 sim100 ["y"] out d hout hres
    have hfin : ¬ ((k : ℚ) < 100) := by
      intro hcon
      apply hf
      show sim100.start + (k : ℚ) * sim100.step < sim100.stop
      norm_num [sim100]
      exact_mod_cast hcon
    have hge : 100 ≤ k := by exact_mod_cast not_lt.mp hfin
    have hle : k ≤ 100 := by
      by_contra hgt
      push_neg at hgt
      have := hg 100 hgt
      norm_num [sim100] at this
    have hk : k = 100 := le_antisymm hle hge
    subst hk
    have htime2 : dictGet d "time"
        = some ((List.range 101).map fun i : ℕ => (i : ℚ)) := by
      rw [htime, cons_tailTimes]
      norm_num [sim100]
    obtain ⟨l, hle2, hll2⟩ := houts "y" (by decide)
    refine ⟨?_, ?_, ?_, ?_⟩
    · simp [runTime, hdict, htime2]
    · simp only [runTime, hdict, Option.some_bind, htime]
      simp [sim100]
    · simp only [runTime, hdict, Option.some_bind, htime2]
      rw [List.get?_map, List.get?_range (by norm_num)]
      norm_num
    · simp [runSeries, hdict, hle2, hll2]

/-- Claim C7 witness: the equal-length statement instantiated at the window
`start=0, stop=10, step=3` with output `y`. -/
theorem C7_equal_series_lengths_witness :
    (∃ k : ℕ,
      (runTime zeroOracle 10 sampleSim ["y"]).map List.length = some (1 + k) ∧
      (∀ m ∈ ["y"], (runSeries zeroOracle 10 sampleSim ["y"] m).map List.length
        = some (1 + k)) ∧
      (∀ m, m ∉ ["y"] → m ≠ "time" → runSeries zeroOracle 10 sampleSim ["y"] m = none)) ∧
    (runTime zeroOracle 101 sim100 ["y"]).map List.length = some 101 ∧
    (runTime zeroOracle 101 sim100 ["y"]).bind List.head? = some 0 ∧
    (runTime zeroOracle 101 sim100 ["y"]).bind (fun l => l.get? 100) = some 100 ∧
    (runSeries zeroOracle 101 sim100 ["y"] "y").map List.length = some 101 :=
  C7_equal_series_lengths zeroOracle 10 sampleSim ["y"] rfl (by decide) (by decide)
    (by decide)
    (run_terminates zeroOracle 10 sampleSim ["y"] rfl (by norm_num [sampleSim]))
